import Mathlib

/-!
Verification development for the danmu-to-ASS conversion pipeline of
`plugins.v2/danmuziyong/danmu_generator.py`.

Python floats are modelled as exact rationals (`ℚ`); the float literals
`0.8` and `0.6` of the source are modelled as `4/5` and `3/5`.  Python's
`round` (banker's rounding, half-to-even) is modelled by `pyRound`,
Python's `int()` truncation toward zero by `pyTrunc`, and Python's
`divmod` on integers (floor division; all divisors in this file are
positive) by `Int.ediv`/`Int.emod`.  File I/O is modelled by passing file
contents as values and returning the would-be written content (`Option`
for fallible writes: `none` means the function failed and wrote nothing).
-/

/-- Python `round(q)`: round to the nearest integer, ties to even. -/
def pyRound (q : ℚ) : ℤ :=
  let f := ⌊q⌋
  if q - f < 1/2 then f
  else if 1/2 < q - f then f + 1
  else if Even f then f else f + 1

/-- Python `int(q)` on a real value: truncation toward zero. -/
def pyTrunc (q : ℚ) : ℤ :=
  if 0 ≤ q then ⌊q⌋ else -⌊-q⌋

/-- Python `f'{z:02d}'` for the integers appearing in timestamps. -/
def pad2 (z : ℤ) : String :=
  if 0 ≤ z ∧ z < 10 then "0" ++ toString z else toString z

/-- `DanmuConverter.convert_timestamp` (danmu_generator.py lines 287-293):
`timestamp = round(timestamp * 100.0)` followed by three `divmod`s and
`f'{hour}:{minute:02d}:{second:02d}.{centsecond:02d}'`. -/
def convert_timestamp (timestamp : ℚ) : String :=
  let n := pyRound (timestamp * 100)
  let hour := n / 360000
  let r1 := n % 360000
  let minute := r1 / 6000
  let r2 := r1 % 6000
  let second := r2 / 100
  let centsecond := r2 % 100
  toString hour ++ ":" ++ pad2 minute ++ ":" ++ pad2 second ++ "." ++ pad2 centsecond

/-- Uppercase hexadecimal digit, as produced by Python's `X` format. -/
def hexChar (k : ℕ) : Char :=
  if k < 10 then Char.ofNat (48 + k) else Char.ofNat (55 + k)

/-- Python `f'{n:06X}'` for `n < 16^6`: six uppercase hex digits. -/
def hex6 (n : ℕ) : String :=
  String.mk [hexChar (n / 1048576 % 16), hexChar (n / 65536 % 16), hexChar (n / 4096 % 16),
    hexChar (n / 256 % 16), hexChar (n / 16 % 16), hexChar (n % 16)]

/-- The color override text `f'&H{color & 0xFFFFFF:06X}'` from
danmu_generator.py line 387. -/
def colorHexStr (color : ℕ) : String :=
  "&H" ++ hex6 (color &&& 0xFFFFFF)

/-- One raw danmu record, with the comma-separated fields of the wire
format's `p` attribute already parsed (`float(p[0])`, `int(p[1])`,
`int(p[2])`, `str(p[3])`) together with the text field `m`. -/
structure RawComment where
  time : ℚ
  pos : ℤ
  color : ℕ
  user : String
  text : String
  deriving DecidableEq, Repr

/-- Insert a comment behind every already-present comment of less or equal
time: the insertion step of a stable sort by time. -/
def insertByTime (c : RawComment) : List RawComment → List RawComment
  | [] => [c]
  | d :: rest => if d.time ≤ c.time then d :: insertByTime c rest else c :: d :: rest

/-- Python `sorted(comments, key=lambda x: float(x['p'].split(',')[0]))`:
a stable sort, ascending by time. -/
def sortByTime (comments : List RawComment) : List RawComment :=
  comments.foldl (fun acc c => insertByTime c acc) []

/-- The de-duplication loop of `filter_comments` (lines 250-256): keep the
first comment carrying each distinct text, tracking seen texts. -/
def dedupByTextGo : List RawComment → List String → List RawComment
  | [], _ => []
  | c :: rest, seen =>
    if c.text ∈ seen then dedupByTextGo rest seen
    else c :: dedupByTextGo rest (c.text :: seen)

/-- The hardcoded budget `max_comments = 2000` of `filter_comments`. -/
def max_comments : ℕ := 2000

/-- The per-bucket body of the random-filter loop (lines 272-280):
`target_count = max(1, int(len(interval_comments) * (max_comments /
len(unique_comments))))`, then `random.sample` when the target is below
the bucket size, else the whole bucket. -/
def sampleBucket (sample : ℕ → List RawComment → List RawComment) (n : ℕ)
    (interval_comments : List RawComment) : List RawComment :=
  let target_count :=
    max 1 (pyTrunc ((interval_comments.length : ℚ) * ((max_comments : ℚ) / (n : ℚ)))).toNat
  if target_count < interval_comments.length then sample target_count interval_comments
  else interval_comments

/-- The random-filter stage of `filter_comments` (lines 260-283): split
the de-duplicated list into `time_intervals = 10` index buckets
(`interval_size = len // 10`, the last bucket absorbing the remainder)
and sample each bucket proportionally. -/
def sampleBuckets (sample : ℕ → List RawComment → List RawComment)
    (unique_comments : List RawComment) : List RawComment :=
  let n := unique_comments.length
  let interval_size := n / 10
  ((List.range 10).map (fun i =>
    sampleBucket sample n
      (if i < 9 then (unique_comments.drop (i * interval_size)).take interval_size
       else unique_comments.drop (9 * interval_size)))).flatten

/-- `DanmuConverter.filter_comments` (danmu_generator.py lines 191-285).
The call `random.sample(interval_comments, target_count)` is modelled by
an arbitrary `sample` function; theorems constrain it by `SampleOk`,
the contract of `random.sample` (returns exactly `k` of the elements,
each population position used at most once). -/
def filter_comments (sample : ℕ → List RawComment → List RawComment)
    (comments : List RawComment) : List RawComment :=
  let sorted_comments := sortByTime comments
  if sorted_comments.length ≤ max_comments then sorted_comments
  else
    let unique_comments := dedupByTextGo sorted_comments []
    if unique_comments.length > max_comments then sampleBuckets sample unique_comments
    else unique_comments

/-- The contract of `random.sample(xs, k)` for `k ≤ len(xs)`: the result
has exactly `k` elements and is a permutation of a sublist of `xs` (it
selects `k` distinct positions, in random order). -/
def SampleOk (sample : ℕ → List RawComment → List RawComment) : Prop :=
  ∀ k xs, k ≤ xs.length →
    (sample k xs).length = k ∧ ∃ ys, ys.Sublist xs ∧ (sample k xs).Perm ys

/-- A deterministic resolution of `random.sample` used by concrete
witnesses: take the first `k` elements. -/
def takeSample (k : ℕ) (xs : List RawComment) : List RawComment :=
  xs.take k

/-- The lane-free test of the allocator loop (line 327):
`track not in tracks or current_time >= tracks[track]`. -/
def freeB (tracks : ℕ → Option ℚ) (current_time : ℚ) (track : ℕ) : Bool :=
  match tracks track with
  | none => true
  | some busy_until => decide (current_time ≥ busy_until)

/-- The loop body of `find_non_overlapping_track` (lines 324-332), scanning
lanes `track, track+1, ...` for `cnt` steps.  `last_time_remain` is
initialised to `100.0` and never reassigned in the source, so the
running comparison is against the constant `100`. -/
def findTrackGo (tracks : ℕ → Option ℚ) (current_time : ℚ) :
    ℕ → ℕ → ℕ → ℕ
  | _, 0, possible_track => possible_track
  | track, cnt + 1, possible_track =>
    match tracks track with
    | none => track
    | some busy_until =>
      if current_time ≥ busy_until then track
      else if busy_until - current_time > 100 then
        findTrackGo tracks current_time (track + 1) cnt track
      else
        findTrackGo tracks current_time (track + 1) cnt possible_track

/-- `DanmuConverter.find_non_overlapping_track` (lines 322-332): scan lanes
`1..max_tracks`, return the first free one, else the fallback lane. -/
def find_non_overlapping_track (tracks : ℕ → Option ℚ) (current_time : ℚ)
    (max_tracks : ℤ) : ℕ :=
  findTrackGo tracks current_time 1 max_tracks.toNat 1

/-- An ASS override directive as emitted by the converter: either a
`\move(x1, y1, x2, y2)` or an `\an8\pos(x, y)`, with the numeric
parameters kept as rationals. -/
inductive Directive where
  | move (x1 y1 x2 y2 : ℚ)
  | an8pos (x y : ℚ)
  deriving DecidableEq, Repr

/-- One emitted `Dialogue:` line (line 412), with its start and end
timestamps, color override text, placement directive and text. -/
structure DialogueEvent where
  startTime : String
  endTime : String
  colorHex : String
  style : Directive
  text : String
  deriving DecidableEq, Repr

/-- The numeric configuration of `convert_comments_to_ass`. -/
structure EmitCfg where
  width : ℤ
  height : ℤ
  fontsize : ℚ
  duration : ℚ

/-- The mutable state of the emission loop of `convert_comments_to_ass`:
the two lane maps, the emitted events, and the three counters. -/
structure EmitState where
  scrolling : ℕ → Option ℚ
  top : ℕ → Option ℚ
  events : List DialogueEvent
  total : ℕ
  bottomCount : ℕ
  skipped : ℕ

/-- The hardcoded `subtitle_area_height = 150` (line 342). -/
def subtitle_area_height : ℚ := 150

/-- `max_tracks = int((height - subtitle_area_height) / (fontsize * 0.8))`
(line 345). -/
def maxTracksOf (cfg : EmitCfg) : ℤ :=
  pyTrunc (((cfg.height : ℚ) - subtitle_area_height) / (cfg.fontsize * (4/5)))

/-- The per-comment body of the emission loop of
`convert_comments_to_ass` (danmu_generator.py lines 363-416). -/
def emitStep (cfg : EmitCfg) (st : EmitState) (comment : RawComment) : EmitState :=
  if comment.text = "" then st
  else
    let timeline := comment.time
    let start_time := convert_timestamp timeline
    let end_time := convert_timestamp (timeline + cfg.duration)
    let text_width := (comment.text.length : ℚ) * cfg.fontsize * (3/5)
    let velocity := ((cfg.width : ℚ) + text_width) / cfg.duration
    let leave_time := text_width / velocity + 1
    let color_hex := colorHexStr comment.color
    if comment.pos = 1 then
      let track_id := find_non_overlapping_track st.scrolling timeline (maxTracksOf cfg)
      let scrolling2 := fun j => if j = track_id then some (timeline + leave_time) else st.scrolling j
      let initial_y := ((track_id : ℚ) - 1) * cfg.fontsize + 10
      if subtitle_area_height > 0 ∧ initial_y > (cfg.height : ℚ) - subtitle_area_height then
        { st with scrolling := scrolling2, skipped := st.skipped + 1 }
      else
        { st with scrolling := scrolling2,
                  events := st.events ++ [DialogueEvent.mk start_time end_time color_hex
                    (Directive.move (cfg.width : ℚ) initial_y
                      (-((comment.text.length : ℚ) * cfg.fontsize)) initial_y)
                    comment.text],
                  total := st.total + 1 }
    else if comment.pos = 4 then
      { st with bottomCount := st.bottomCount + 1, skipped := st.skipped + 1 }
    else if comment.pos = 5 then
      let track_id := find_non_overlapping_track st.top timeline (maxTracksOf cfg)
      let top2 := fun j => if j = track_id then some (timeline + cfg.duration) else st.top j
      { st with top := top2,
                events := st.events ++ [DialogueEvent.mk start_time end_time color_hex
                  (Directive.an8pos ((cfg.width : ℚ) / 2)
                    (50 + ((track_id : ℚ) - 1) * cfg.fontsize))
                  comment.text],
                total := st.total + 1 }
    else
      { st with events := st.events ++ [DialogueEvent.mk start_time end_time color_hex
                  (Directive.move 0 0 (cfg.width : ℚ) 0)
                  comment.text],
                total := st.total + 1 }

/-- The state at the top of the emission loop: empty lane maps, no events,
zero counters. -/
def initEmitState : EmitState :=
  { scrolling := fun _ => none, top := fun _ => none, events := [],
    total := 0, bottomCount := 0, skipped := 0 }

/-- The emission loop: fold `emitStep` over the comment list. -/
def emitAll (cfg : EmitCfg) (st : EmitState) (comments : List RawComment) : EmitState :=
  comments.foldl (emitStep cfg) st

/-- `DanmuConverter.convert_comments_to_ass` (lines 334-419): filter the
comments, then run the emission loop from the fresh state. -/
def convert_comments_to_ass (sample : ℕ → List RawComment → List RawComment)
    (cfg : EmitCfg) (comments : List RawComment) : EmitState :=
  emitAll cfg initEmitState (filter_comments sample comments)

/-- The sequential allocation pass of the claims about Scroll comments:
for each `(offset_seconds, leave_time)` pair in order, call the allocator
(line 391) and set the chosen lane busy until `offset + leave_time`
(line 392).  Returns the lane assigned to each comment. -/
def scroll_alloc_pass (max_tracks : ℤ) :
    (ℕ → Option ℚ) → List (ℚ × ℚ) → List (ℕ × ℚ × ℚ)
  | _, [] => []
  | tracks, (t, l) :: rest =>
    let k := find_non_overlapping_track tracks t max_tracks
    (k, t, l) :: scroll_alloc_pass max_tracks
      (fun j => if j = k then some (t + l) else tracks j) rest

/-- Whether every allocation of the pass returned a lane that was actually
free at the comment's offset (the allocator falls back to a busy lane
when no lane is free). -/
def scroll_pass_ok (max_tracks : ℤ) :
    (ℕ → Option ℚ) → List (ℚ × ℚ) → Bool
  | _, [] => true
  | tracks, (t, l) :: rest =>
    let k := find_non_overlapping_track tracks t max_tracks
    freeB tracks t k && scroll_pass_ok max_tracks
      (fun j => if j = k then some (t + l) else tracks j) rest

/-- Python whitespace, as stripped by `str.strip()` and skipped by the
regex class `\s`. -/
def isPySpace (c : Char) : Bool :=
  c = ' ' || c = '\t' || c = '\n' || c = '\r' || c = '\x0b' || c = '\x0c'

/-- ASCII decimal digit test, the regex class `\d`. -/
def isDigitCh (c : Char) : Bool :=
  '0' ≤ c && c ≤ '9'

/-- Python `int()` of a nonempty decimal digit string. -/
def digitsToNat (ds : List Char) : ℕ :=
  ds.foldl (fun a c => a * 10 + (c.toNat - 48)) 0

/-- Python `str.strip()`: drop leading and trailing whitespace. -/
def pyStrip (s : List Char) : List Char :=
  ((s.dropWhile isPySpace).reverse.dropWhile isPySpace).reverse

/-- Index of the first occurrence of `needle` in the text at or after the
running index `i`; models Python `str.find`. -/
def findSub (needle : List Char) : List Char → ℕ → Option ℕ
  | [], i => if needle.isPrefixOf ([] : List Char) then some i else none
  | c :: t, i =>
    if needle.isPrefixOf (c :: t) then some i
    else findSub needle t (i + 1)

/-- The first match of `re.search(r"Format:.+", content)` (line 510): the
text `Format:` followed by at least one non-newline character, extended
to the end of its line. -/
def findFormatFrom : List Char → Option (List Char)
  | [] => none
  | c :: t =>
    if ("Format:".data).isPrefixOf (c :: t) then
      let line := (t.drop 6).takeWhile (fun a => a != '\n')
      if line = [] then findFormatFrom t else some (("Format:".data) ++ line)
    else findFormatFrom t

/-- All matches of `re.findall(r'Style:.*', content)` (line 514): each
occurrence of `Style:` extended to the end of its line, scanning
resuming after each match. -/
def findStyles : List Char → List (List Char)
  | [] => []
  | c :: t =>
    if ("Style:".data).isPrefixOf (c :: t) then
      let rest := t.drop 5
      let line := rest.takeWhile (fun a => a != '\n')
      (("Style:".data) ++ line) :: findStyles (rest.drop line.length)
    else findStyles t
termination_by l => l.length
decreasing_by
  · simp only [List.length_cons, List.length_drop]
    omega
  · simp only [List.length_cons]
    omega

/-- The first match of `re.search(r"PlayResX:\s*(\d+)", content)`
(lines 503-504), returning the captured number.  The digit group must
directly follow the (greedy) whitespace run for the regex to match. -/
def findResX : List Char → Option ℕ
  | [] => none
  | c :: t =>
    if ("PlayResX:".data).isPrefixOf (c :: t) then
      let rest := (t.drop 8).dropWhile isPySpace
      let ds := rest.takeWhile isDigitCh
      if ds = [] then findResX t else some (digitsToNat ds)
    else findResX t

/-- Python `float(s)` on the strings this pipeline feeds it: optional
sign, then decimal digits with an optional fractional part (exponent,
infinity and NaN forms are not produced by ASS style lines and are not
modelled).  `none` models the `ValueError` that aborts the merge. -/
def parsePyFloat (s : List Char) : Option ℚ :=
  let s1 := ((s.dropWhile isPySpace).reverse.dropWhile isPySpace).reverse
  let signAndRest :=
    match s1 with
    | '-' :: r => (true, r)
    | '+' :: r => (false, r)
    | _ => (false, s1)
  let neg := signAndRest.1
  let s2 := signAndRest.2
  let ip := s2.takeWhile isDigitCh
  match s2.drop ip.length with
  | [] =>
    if ip = [] then none
    else some (cond neg (-(digitsToNat ip : ℚ)) (digitsToNat ip))
  | '.' :: r =>
    let fp := r.takeWhile isDigitCh
    if r.drop fp.length ≠ [] then none
    else if ip = [] ∧ fp = [] then none
    else
      let v := (digitsToNat ip : ℚ) + (digitsToNat fp : ℚ) / ((10 : ℚ) ^ fp.length)
      some (cond neg (-v) v)
  | _ => none

/-- One iteration of the style-rescaling loop (lines 515-519): split the
line on commas and, when it has at least three fields, replace field 2
by `str(int(float(field) * ratio))`.  `none` models the `ValueError`
from an unparseable font-size field, which aborts the whole merge. -/
def rescaleStyleLine (fontSizeScale : ℚ) (line : List Char) : Option (List Char) :=
  match line.splitOn ',' with
  | a :: b :: c2 :: rest =>
    match parsePyFloat c2 with
    | none => none
    | some v =>
      some (List.intercalate [','] (a :: b :: ((toString (pyTrunc (v * fontSizeScale))).data) :: rest))
  | _ => some line

/-- `SubtitleProcessor.combine_sub_ass` (danmu_generator.py lines 486-543),
modelled on file contents: `sub1_content` and `sub2_content` are the two
files' decoded texts and `sub2_ext` is the secondary file's extension.
The result is the content of the `.withDanmu.ass` file the source would
write; `none` models every `return False` path (including exceptions
caught by the surrounding `try`), on which no output file is created and
the primary danmu-only file is left untouched on disk. -/
def combine_sub_ass (sub1_content sub2_content : List Char) (sub2_ext : List Char) :
    Option (List Char) :=
  if (sub2_ext.map Char.toLower) ∈ [".ass".data, ".ssa".data] then
    let ratioResult : Option ℚ :=
      match findResX sub1_content, findResX sub2_content with
      | some a, some b => if b = 0 then none else some ((a : ℚ) / (b : ℚ) * (4/5))
      | _, _ => some 1
    match ratioResult with
    | none => none
    | some fontSizeScale =>
      match findFormatFrom sub2_content with
      | none => none
      | some format_line =>
        match (findStyles sub2_content).mapM (rescaleStyleLine fontSizeScale) with
        | none => none
        | some style_lines =>
          match findSub ("[Events]".data) sub2_content 0 with
          | none => none
          | some events_start =>
            let events_content := pyStrip (sub2_content.drop (events_start + 8))
            some (sub1_content ++ ("\n[V4+ Styles]\n".data) ++ format_line ++
              ('\n' :: List.intercalate ('\n' :: ([] : List Char)) style_lines) ++
              ("\n[Events]\n".data) ++ events_content)
  else none

theorem findTrackGo_range (tracks : ℕ → Option ℚ) (t : ℚ) (M : ℕ) :
    ∀ cnt lo p, 1 ≤ p → p ≤ M → 1 ≤ lo → lo + cnt ≤ M + 1 →
      1 ≤ findTrackGo tracks t lo cnt p ∧ findTrackGo tracks t lo cnt p ≤ M := by
  intro cnt
  induction cnt with
  | zero =>
    intro lo p h1 h2 _ _
    exact ⟨h1, h2⟩
  | succ n ih =>
    intro lo p h1 h2 hlo hub
    simp only [findTrackGo]
    cases htr : tracks lo with
    | none =>
      refine ⟨?_, ?_⟩
      · show 1 ≤ lo
        omega
      · show lo ≤ M
        omega
    | some b =>
      by_cases hfree : t ≥ b
      · simp only [if_pos hfree]
        exact ⟨hlo, by omega⟩
      · simp only [if_neg hfree]
        by_cases hfar : b - t > 100
        · simp only [if_pos hfar]
          exact ih (lo + 1) lo hlo (by omega) (by omega) (by omega)
        · simp only [if_neg hfar]
          exact ih (lo + 1) p h1 h2 (by omega) (by omega)

/-- C6: for every lane-state map, every current time and every
`max_lanes ≥ 1` (the spec derives `max_lanes` with a minimum of 1), the
allocator returns a lane index in `[1, max_lanes]`. -/
theorem c6_assign_track_range (tracks : ℕ → Option ℚ) (current_time : ℚ) (max_lanes : ℤ)
    (h : 1 ≤ max_lanes) :
    1 ≤ find_non_overlapping_track tracks current_time max_lanes ∧
      (find_non_overlapping_track tracks current_time max_lanes : ℤ) ≤ max_lanes := by
  have hM : 1 ≤ max_lanes.toNat := by omega
  obtain ⟨a, b⟩ := findTrackGo_range tracks current_time max_lanes.toNat max_lanes.toNat
    1 1 le_rfl hM le_rfl (by omega)
  rw [find_non_overlapping_track]
  exact ⟨a, by omega⟩

/-- Witness for C6 at a concrete input. -/
theorem c6_assign_track_range_witness :
    (1 ≤ (3 : ℤ)) ∧
      (1 ≤ find_non_overlapping_track (fun _ => none) 0 3 ∧
        (find_non_overlapping_track (fun _ => none) 0 3 : ℤ) ≤ 3) :=
  ⟨by decide, c6_assign_track_range (fun _ => none) 0 3 (by decide)⟩

theorem findTrackGo_all_busy (tracks : ℕ → Option ℚ) (t : ℚ) :
    ∀ cnt lo p,
      (∀ j, lo ≤ j → j < lo + cnt → freeB tracks t j = false) →
      ((findTrackGo tracks t lo cnt p = p ∧
          ∀ j, lo ≤ j → j < lo + cnt → ∀ b, tracks j = some b → b - t ≤ 100) ∨
        ((∃ b, tracks (findTrackGo tracks t lo cnt p) = some b ∧ b - t > 100) ∧
          lo ≤ findTrackGo tracks t lo cnt p ∧
          ∀ j, findTrackGo tracks t lo cnt p < j → j < lo + cnt →
            ∀ b, tracks j = some b → b - t ≤ 100)) := by
  intro cnt
  induction cnt with
  | zero =>
    intro lo p _
    exact Or.inl ⟨rfl, fun j h1 h2 => absurd (Nat.lt_of_lt_of_le h2 (by omega)) (Nat.not_lt.mpr h1)⟩
  | succ n ih =>
    intro lo p hbusy
    have hlo := hbusy lo le_rfl (by omega)
    simp only [findTrackGo]
    cases htr : tracks lo with
    | none => rw [freeB, htr] at hlo; exact absurd hlo (by simp)
    | some b =>
      have hnotfree : ¬ t ≥ b := by
        rw [freeB, htr] at hlo
        simpa using hlo
      simp only [if_neg hnotfree]
      have hbusy2 : ∀ j, lo + 1 ≤ j → j < lo + 1 + n → freeB tracks t j = false := by
        intro j ha hb2
        exact hbusy j (by omega) (by omega)
      by_cases hfar : b - t > 100
      · simp only [if_pos hfar]
        rcases ih (lo + 1) lo hbusy2 with ⟨heq, hrest⟩ | ⟨hex, hge, hrest⟩
        · refine Or.inr ⟨⟨b, by rw [heq]; exact ⟨htr, hfar⟩⟩, by omega, ?_⟩
          intro j hgt hlt b2 hb2
          rw [heq] at hgt
          exact hrest j (by omega) (by omega) b2 hb2
        · refine Or.inr ⟨hex, by omega, ?_⟩
          intro j hgt hlt b2 hb2
          exact hrest j hgt (by omega) b2 hb2
      · simp only [if_neg hfar]
        rcases ih (lo + 1) p hbusy2 with ⟨heq, hrest⟩ | ⟨hex, hge, hrest⟩
        · refine Or.inl ⟨heq, ?_⟩
          intro j h1 h2 b2 hb2
          rcases Nat.eq_or_lt_of_le h1 with h1e | h1l
          · rw [← h1e] at hb2
            rw [htr] at hb2
            cases hb2
            exact not_lt.mp hfar
          · exact hrest j (by omega) (by omega) b2 hb2
        · refine Or.inr ⟨hex, by omega, ?_⟩
          intro j hgt hlt b2 hb2
          exact hrest j hgt (by omega) b2 hb2

/-- C5 (amended): when every lane in `1..max_lanes` is busy, the allocator
returns the highest-indexed lane whose remaining busy time exceeds the
100-second default horizon (the constant initial `last_time_remain`), or
lane 1 when no lane exceeds the horizon — not the lane with the largest
remaining busy time. -/
theorem c5_fallback_last_beyond_horizon (tracks : ℕ → Option ℚ) (t : ℚ) (m : ℤ)
    (hm : 1 ≤ m)
    (hbusy : ∀ j : ℕ, 1 ≤ j → (j : ℤ) ≤ m → freeB tracks t j = false) :
    (1 ≤ find_non_overlapping_track tracks t m ∧
      (find_non_overlapping_track tracks t m : ℤ) ≤ m) ∧
    ((find_non_overlapping_track tracks t m = 1 ∧
        ∀ j : ℕ, 1 ≤ j → (j : ℤ) ≤ m → ∀ b, tracks j = some b → b - t ≤ 100) ∨
      ((∃ b, tracks (find_non_overlapping_track tracks t m) = some b ∧ b - t > 100) ∧
        ∀ j : ℕ, find_non_overlapping_track tracks t m < j → (j : ℤ) ≤ m →
          ∀ b, tracks j = some b → b - t ≤ 100)) := by
  refine ⟨c6_assign_track_range tracks t m hm, ?_⟩
  have hwin : ∀ j, 1 ≤ j → j < 1 + m.toNat → freeB tracks t j = false := by
    intro j h1 h2
    exact hbusy j h1 (by omega)
  rcases findTrackGo_all_busy tracks t m.toNat 1 1 hwin with ⟨heq, hrest⟩ | ⟨hex, _, hrest⟩
  · refine Or.inl ⟨heq, ?_⟩
    intro j h1 h2 b hb
    exact hrest j h1 (by omega) b hb
  · refine Or.inr ⟨hex, ?_⟩
    intro j hgt hle b hb
    exact hrest j hgt (by omega) b hb

/-- The two-lane state used to refute C5 as stated: both lanes busy past
the horizon, lane 1 with the larger remaining time. -/
def c5Tracks : ℕ → Option ℚ :=
  fun k => if k = 1 then some 200 else if k = 2 then some 150 else none

/-- Counterexample to C5 as stated: at `current_time = 0` with both lanes
busy (lane 1 until 200, lane 2 until 150), the lane with the largest
remaining busy time is lane 1, but the allocator returns lane 2. -/
theorem c5_counterexample :
    find_non_overlapping_track c5Tracks 0 2 = 2 ∧
    freeB c5Tracks 0 1 = false ∧ freeB c5Tracks 0 2 = false ∧
    c5Tracks 1 = some 200 ∧ c5Tracks 2 = some 150 ∧
    ((200 : ℚ) - 0 > 150 - 0) ∧ (2 : ℕ) ≠ 1 := by
  refine ⟨?_, ?_, ?_, ?_, ?_, by norm_num, by decide⟩ <;>
    norm_num [find_non_overlapping_track, findTrackGo, freeB, c5Tracks]

/-- Witness for the amended C5 at the concrete two-lane busy state. -/
theorem c5_fallback_last_beyond_horizon_witness :
    ((1 : ℤ) ≤ 2 ∧ (∀ j : ℕ, 1 ≤ j → (j : ℤ) ≤ 2 → freeB c5Tracks 0 j = false)) ∧
    ((1 ≤ find_non_overlapping_track c5Tracks 0 2 ∧
        (find_non_overlapping_track c5Tracks 0 2 : ℤ) ≤ 2) ∧
      ((find_non_overlapping_track c5Tracks 0 2 = 1 ∧
          ∀ j : ℕ, 1 ≤ j → (j : ℤ) ≤ 2 → ∀ b, c5Tracks j = some b → b - 0 ≤ 100) ∨
        ((∃ b, c5Tracks (find_non_overlapping_track c5Tracks 0 2) = some b ∧ b - 0 > 100) ∧
          ∀ j : ℕ, find_non_overlapping_track c5Tracks 0 2 < j → (j : ℤ) ≤ 2 →
            ∀ b, c5Tracks j = some b → b - 0 ≤ 100))) := by
  have hb : ∀ j : ℕ, 1 ≤ j → (j : ℤ) ≤ 2 → freeB c5Tracks 0 j = false := by
    intro j h1 h2
    have h3 : j ≤ 2 := by omega
    interval_cases j <;> norm_num [freeB, c5Tracks]
  exact ⟨⟨by norm_num, hb⟩, c5_fallback_last_beyond_horizon c5Tracks 0 2 (by norm_num) hb⟩

theorem scroll_pass_busy_le (max_tracks : ℤ) :
    ∀ (comms : List (ℚ × ℚ)) (tracks : ℕ → Option ℚ) (lane : ℕ) (b : ℚ),
      scroll_pass_ok max_tracks tracks comms = true →
      (∀ x ∈ comms, 0 ≤ x.2) →
      tracks lane = some b →
      ∀ e ∈ scroll_alloc_pass max_tracks tracks comms, e.1 = lane → b ≤ e.2.1 := by
  intro comms
  induction comms with
  | nil =>
    intro tracks lane b _ _ _ e he
    simp [scroll_alloc_pass] at he
  | cons hd rest ih =>
    intro tracks lane b hok hnn htr e he hlane
    obtain ⟨t, l⟩ := hd
    simp only [scroll_pass_ok, Bool.and_eq_true] at hok
    obtain ⟨hfree, hrec⟩ := hok
    simp only [scroll_alloc_pass, List.mem_cons] at he
    have hl0 : 0 ≤ l := hnn (t, l) (List.mem_cons_self _ _)
    rcases he with he | he
    · subst he
      simp only at hlane
      rw [hlane] at hfree
      rw [freeB, htr] at hfree
      simpa using hfree
    · by_cases hk : lane = find_non_overlapping_track tracks t max_tracks
      · have hupd : (fun j => if j = find_non_overlapping_track tracks t max_tracks
            then some (t + l) else tracks j) lane = some (t + l) := by
          simp [hk]
        have hble : b ≤ t := by
          rw [hk] at htr
          rw [freeB, htr] at hfree
          simpa using hfree
        have := ih _ lane (t + l) hrec (fun x hx => hnn x (List.mem_cons_of_mem _ hx)) hupd e he hlane
        linarith
      · have hupd : (fun j => if j = find_non_overlapping_track tracks t max_tracks
            then some (t + l) else tracks j) lane = some b := by
          simp [hk, htr]
        exact ih _ lane b hrec (fun x hx => hnn x (List.mem_cons_of_mem _ hx)) hupd e he hlane

/-- C1 (amended): in a sequential pass where every allocation returns a
lane that is free at the comment's offset (`scroll_pass_ok`; the
allocator otherwise knowingly reuses a busy lane) and leave times are
nonnegative, no two Scroll comments whose visibility intervals
`[offset, offset + leave_time)` overlap are assigned the same lane. -/
theorem c1_no_overlap_when_free (max_tracks : ℤ) (comms : List (ℚ × ℚ))
    (tracks : ℕ → Option ℚ)
    (hok : scroll_pass_ok max_tracks tracks comms = true)
    (hnn : ∀ x ∈ comms, 0 ≤ x.2) :
    (scroll_alloc_pass max_tracks tracks comms).Pairwise
      (fun a b => (a.2.1 < b.2.1 + b.2.2 ∧ b.2.1 < a.2.1 + a.2.2) → a.1 ≠ b.1) := by
  induction comms generalizing tracks with
  | nil => simp [scroll_alloc_pass]
  | cons hd rest ih =>
    obtain ⟨t, l⟩ := hd
    simp only [scroll_pass_ok, Bool.and_eq_true] at hok
    obtain ⟨hfree, hrec⟩ := hok
    simp only [scroll_alloc_pass]
    refine List.Pairwise.cons ?_ (ih _ hrec (fun x hx => hnn x (List.mem_cons_of_mem _ hx)))
    intro e he hov heq
    simp only at heq
    have hupd : (fun j => if j = find_non_overlapping_track tracks t max_tracks
        then some (t + l) else tracks j) (find_non_overlapping_track tracks t max_tracks) =
        some (t + l) := by simp
    have hble := scroll_pass_busy_le max_tracks rest _ _ (t + l) hrec
      (fun x hx => hnn x (List.mem_cons_of_mem _ hx)) hupd e he heq.symm
    exact absurd hov.2 (not_lt.mpr hble)

/-- Counterexample to C1 as stated: with a single lane, two Scroll
comments at offset 0 with leave time 5 are both assigned lane 1 by the
pass although their visibility intervals `[0, 5)` overlap. -/
theorem c1_counterexample :
    scroll_alloc_pass 1 (fun _ => none) [((0 : ℚ), (5 : ℚ)), (0, 5)] =
      [(1, 0, 5), (1, 0, 5)] ∧
    ((0 : ℚ) < 0 + 5 ∧ (0 : ℚ) < 0 + 5) := by
  constructor
  · norm_num [scroll_alloc_pass, find_non_overlapping_track, findTrackGo]
  · norm_num

/-- Witness for the amended C1 on a two-lane, two-comment pass in which
both allocations find a free lane. -/
theorem c1_no_overlap_when_free_witness :
    (scroll_pass_ok 2 (fun _ => none) [((0 : ℚ), (1 : ℚ)), (0, 1)] = true ∧
      (∀ x ∈ [((0 : ℚ), (1 : ℚ)), (0, 1)], 0 ≤ x.2)) ∧
    (scroll_alloc_pass 2 (fun _ => none) [((0 : ℚ), (1 : ℚ)), (0, 1)]).Pairwise
      (fun a b => (a.2.1 < b.2.1 + b.2.2 ∧ b.2.1 < a.2.1 + a.2.2) → a.1 ≠ b.1) := by
  have hok : scroll_pass_ok 2 (fun _ => none) [((0 : ℚ), (1 : ℚ)), (0, 1)] = true := by
    norm_num [scroll_pass_ok, find_non_overlapping_track, findTrackGo, freeB]
  have hnn : ∀ x ∈ [((0 : ℚ), (1 : ℚ)), (0, 1)], 0 ≤ x.2 := by
    intro x hx
    simp only [List.mem_cons, List.mem_singleton] at hx
    rcases hx with h | h | h
    · rw [h]; norm_num
    · rw [h]; norm_num
    · simp at h
  exact ⟨⟨hok, hnn⟩, c1_no_overlap_when_free 2 [(0, 1), (0, 1)] (fun _ => none) hok hnn⟩

theorem pyRound_ge_floor (q : ℚ) : ⌊q⌋ ≤ pyRound q := by
  simp only [pyRound]
  split
  · exact le_rfl
  · split
    · omega
    · split
      · exact le_rfl
      · omega

theorem pyRound_sub_le (q : ℚ) : |((pyRound q : ℤ) : ℚ) - q| ≤ 1/2 := by
  have h0 : (0 : ℚ) ≤ q - ⌊q⌋ := by
    have := Int.floor_le q
    linarith
  have h1 : q - ⌊q⌋ < 1 := by
    have := Int.lt_floor_add_one q
    linarith
  simp only [pyRound]
  by_cases hc1 : q - ⌊q⌋ < 1/2
  · rw [if_pos hc1, abs_le]
    constructor <;> linarith
  · rw [if_neg hc1]
    by_cases hc2 : 1/2 < q - ⌊q⌋
    · rw [if_pos hc2, abs_le]
      push_cast
      constructor <;> linarith
    · rw [if_neg hc2]
      have heq : q - ⌊q⌋ = 1/2 := le_antisymm (not_lt.mp hc2) (not_lt.mp hc1)
      by_cases he : Even (⌊q⌋)
      · rw [if_pos he, abs_le]
        constructor <;> linarith
      · rw [if_neg he, abs_le]
        push_cast
        constructor <;> linarith

theorem convert_timestamp_zero : convert_timestamp 0 = "0:00:00.00" := by
  have h : pyRound ((0 : ℚ) * 100) = 0 := by
    rw [show ((0 : ℚ) * 100) = 0 from by norm_num]
    simp only [pyRound]
    norm_num
  simp only [convert_timestamp, h]
  decide

theorem convert_timestamp_tie : convert_timestamp (3661005/1000) = "1:01:01.00" := by
  have h : pyRound ((3661005/1000 : ℚ) * 100) = 366100 := by
    rw [show ((3661005/1000 : ℚ) * 100) = 732201/2 from by norm_num]
    simp only [pyRound]
    rw [show (⌊(732201/2 : ℚ)⌋ : ℤ) = 366100 from by norm_num]
    rw [if_neg (by norm_num), if_neg (by norm_num), if_pos (by decide)]
  simp only [convert_timestamp, h]
  decide

theorem convert_timestamp_hours : convert_timestamp 90000 = "25:00:00.00" := by
  have h : pyRound ((90000 : ℚ) * 100) = 9000000 := by
    rw [show ((90000 : ℚ) * 100) = 9000000 from by norm_num]
    simp only [pyRound]
    rw [show (⌊(9000000 : ℚ)⌋ : ℤ) = 9000000 from by norm_num]
    norm_num
  simp only [convert_timestamp, h]
  decide

/-- C7 (amended): `convert_timestamp` formats a non-negative seconds value
as `H:MM:SS.CC` with centisecond precision (the rendered digit groups
reconstruct `round(100·t)`, which is within half a centisecond of
`100·t`), hours unbounded (e.g. 90000 s renders as hour 25);
`convert_timestamp 0 = "0:00:00.00"`, but `convert_timestamp 3661.005 =
"1:01:01.00"`, since `3661.005 * 100` is exactly the tie `366100.5`
(also in the source's binary64 arithmetic, where `3661.005` parses to
`4025317566846075/2^40` and the product rounds to `366100.5`) and
Python's `round` breaks ties to even. -/
theorem c7_convert_timestamp (t : ℚ) (ht : 0 ≤ t) :
    convert_timestamp 0 = "0:00:00.00" ∧
    convert_timestamp (3661005/1000) = "1:01:01.00" ∧
    convert_timestamp 90000 = "25:00:00.00" ∧
    ∃ h m s c : ℤ, 0 ≤ h ∧ 0 ≤ m ∧ m < 60 ∧ 0 ≤ s ∧ s < 60 ∧ 0 ≤ c ∧ c < 100 ∧
      convert_timestamp t = toString h ++ ":" ++ pad2 m ++ ":" ++ pad2 s ++ "." ++ pad2 c ∧
      ((h * 60 + m) * 60 + s) * 100 + c = pyRound (t * 100) ∧
      |((pyRound (t * 100) : ℤ) : ℚ) - t * 100| ≤ 1/2 := by
  refine ⟨convert_timestamp_zero, convert_timestamp_tie, convert_timestamp_hours, ?_⟩
  have hq0 : (0 : ℚ) ≤ t * 100 := by positivity
  have hn0 : 0 ≤ pyRound (t * 100) :=
    le_trans (Int.floor_nonneg.mpr hq0) (pyRound_ge_floor (t * 100))
  refine ⟨pyRound (t * 100) / 360000,
    pyRound (t * 100) % 360000 / 6000,
    pyRound (t * 100) % 360000 % 6000 / 100,
    pyRound (t * 100) % 360000 % 6000 % 100,
    ?_, ?_, ?_, ?_, ?_, ?_, ?_, rfl, ?_, pyRound_sub_le (t * 100)⟩
  · omega
  · omega
  · omega
  · omega
  · omega
  · omega
  · omega
  · omega

/-- Counterexample to C7 as stated: the source renders 3661.005 as
"1:01:01.00" (`3661.005 * 100` is exactly the tie `366100.5`, and
Python `round` breaks ties to even), not "1:01:01.01". -/
theorem c7_counterexample :
    convert_timestamp (3661005/1000) = "1:01:01.00" ∧
      "1:01:01.00" ≠ "1:01:01.01" :=
  ⟨convert_timestamp_tie, by decide⟩

/-- Witness for the amended C7 at the concrete input 7/4 seconds. -/
theorem c7_convert_timestamp_witness :
    (0 ≤ (7/4 : ℚ)) ∧
    (convert_timestamp 0 = "0:00:00.00" ∧
     convert_timestamp (3661005/1000) = "1:01:01.00" ∧
     convert_timestamp 90000 = "25:00:00.00" ∧
     ∃ h m s c : ℤ, 0 ≤ h ∧ 0 ≤ m ∧ m < 60 ∧ 0 ≤ s ∧ s < 60 ∧ 0 ≤ c ∧ c < 100 ∧
       convert_timestamp (7/4) = toString h ++ ":" ++ pad2 m ++ ":" ++ pad2 s ++ "." ++ pad2 c ∧
       ((h * 60 + m) * 60 + s) * 100 + c = pyRound ((7/4) * 100) ∧
       |((pyRound ((7/4 : ℚ) * 100) : ℤ) : ℚ) - (7/4) * 100| ≤ 1/2) :=
  ⟨by norm_num, c7_convert_timestamp (7/4) (by norm_num)⟩

theorem pyRound_intCast (z : ℤ) : pyRound ((z : ℚ)) = z := by
  simp only [pyRound, Int.floor_intCast]
  rw [if_pos (by norm_num)]

theorem convert_timestamp_five : convert_timestamp 5 = "0:00:05.00" := by
  have h : pyRound ((5 : ℚ) * 100) = 500 := by
    rw [show ((5 : ℚ) * 100) = ((500 : ℤ) : ℚ) from by norm_num, pyRound_intCast]
  simp only [convert_timestamp, h]
  decide

theorem convert_timestamp_eleven : convert_timestamp 11 = "0:00:11.00" := by
  have h : pyRound ((11 : ℚ) * 100) = 1100 := by
    rw [show ((11 : ℚ) * 100) = ((1100 : ℤ) : ℚ) from by norm_num, pyRound_intCast]
  simp only [convert_timestamp, h]
  decide

theorem find_track_of_empty (t : ℚ) (m : ℤ) :
    find_non_overlapping_track (fun _ => none) t m = 1 := by
  rw [find_non_overlapping_track]
  cases h : m.toNat with
  | zero => rfl
  | succ k => rfl

theorem land_mask_mod (c : ℕ) : c &&& 16777215 = c % 16777216 := by
  have h1 : (16777215 : ℕ) = 2 ^ 24 - 1 := by norm_num
  have h2 : (16777216 : ℕ) = 2 ^ 24 := by norm_num
  rw [h1, h2]
  apply Nat.eq_of_testBit_eq
  intro i
  rw [Nat.testBit_land, Nat.testBit_mod_two_pow, Nat.testBit_two_pow_sub_one]
  exact Bool.and_comm _ _

/-- The spec scenario's configuration: canvas 1920x1080, font 50,
duration 6. -/
def c2Cfg : EmitCfg := ⟨1920, 1080, 50, 6⟩

/-- The spec scenario's single comment: offset 5 s, Scroll, color
0xFF0000, text "hi". -/
def c2Comment : RawComment := ⟨5, 1, 0xFF0000, "u", "hi"⟩

/-- The event the source emits for `c2Comment` under `c2Cfg`. -/
def c2Event : DialogueEvent :=
  ⟨"0:00:05.00", "0:00:11.00", "&HFF0000", Directive.move 1920 10 (-100) 10, "hi"⟩

theorem scenario_red_events :
    (emitAll c2Cfg initEmitState [c2Comment]).events = [c2Event] := by
  rw [emitAll, List.foldl_cons, List.foldl_nil]
  simp only [emitStep, c2Comment, c2Cfg, initEmitState]
  rw [if_neg (by decide : ¬ ("hi" = ""))]
  rw [if_pos trivial]
  rw [find_track_of_empty]
  rw [if_neg (show ¬ (subtitle_area_height > 0 ∧
      (((1 : ℕ) : ℚ) - 1) * 50 + 10 > ((1080 : ℤ) : ℚ) - subtitle_area_height) from by
    norm_num [subtitle_area_height])]
  simp only [List.nil_append, c2Event]
  rw [show ((5 : ℚ) + 6) = 11 from by norm_num]
  rw [convert_timestamp_five, convert_timestamp_eleven]
  rw [show colorHexStr 16711680 = "&HFF0000" from by decide]
  rw [show ("hi".length) = 2 from rfl]
  norm_num

/-- C2 (amended): the Dialogue line's color override tag encodes the input
color masked to 24 bits in the input's own (RGB) channel order — the
source performs no BGR channel swap and appends no trailing `&`.  On the
spec's scenario (offset 5 s, Scroll, color 0xFF0000, text "hi", canvas
1920x1080, font 50, duration 6) exactly one Dialogue event is emitted,
with start time `0:00:05.00`, color tag `&HFF0000`, and a move from
x = 1920 at y = 10. -/
theorem c2_color_tag_unswapped :
    (∀ c : ℕ, colorHexStr c = "&H" ++ hex6 (c % 16777216)) ∧
    (emitAll c2Cfg initEmitState [c2Comment]).events = [c2Event] := by
  constructor
  · intro c
    rw [colorHexStr, land_mask_mod]
  · exact scenario_red_events

/-- Counterexample to C2 as stated: for input color 0xFF0000 the emitted
tag text is `&HFF0000` (channel order preserved, no trailing ampersand),
not the claimed BGR-swapped `&H0000FF&`. -/
theorem c2_counterexample :
    (emitAll c2Cfg initEmitState [c2Comment]).events.map DialogueEvent.colorHex =
      ["&HFF0000"] ∧ ("&HFF0000" : String) ≠ "&H0000FF&" := by
  constructor
  · rw [scenario_red_events]
    decide
  · decide

theorem emitStep_proj_congr (cfg : EmitCfg) (st st' : EmitState) (c : RawComment)
    (h1 : st.scrolling = st'.scrolling) (h2 : st.top = st'.top) (h3 : st.events = st'.events) :
    (emitStep cfg st c).scrolling = (emitStep cfg st' c).scrolling ∧
    (emitStep cfg st c).top = (emitStep cfg st' c).top ∧
    (emitStep cfg st c).events = (emitStep cfg st' c).events := by
  obtain ⟨s1, t1, e1, tot1, b1, sk1⟩ := st
  obtain ⟨s2, t2, e2, tot2, b2, sk2⟩ := st'
  simp only at h1 h2 h3
  subst h1
  subst h2
  subst h3
  simp only [emitStep]
  split
  · exact ⟨rfl, rfl, rfl⟩
  · split
    · split
      · exact ⟨rfl, rfl, rfl⟩
      · exact ⟨rfl, rfl, rfl⟩
    · split
      · exact ⟨rfl, rfl, rfl⟩
      · split
        · exact ⟨rfl, rfl, rfl⟩
        · exact ⟨rfl, rfl, rfl⟩

theorem emitAll_proj_congr (cfg : EmitCfg) :
    ∀ (comments : List RawComment) (st st' : EmitState),
      st.scrolling = st'.scrolling → st.top = st'.top → st.events = st'.events →
      (emitAll cfg st comments).scrolling = (emitAll cfg st' comments).scrolling ∧
      (emitAll cfg st comments).top = (emitAll cfg st' comments).top ∧
      (emitAll cfg st comments).events = (emitAll cfg st' comments).events := by
  intro comments
  induction comments with
  | nil =>
    intro st st' h1 h2 h3
    exact ⟨h1, h2, h3⟩
  | cons c rest ih =>
    intro st st' h1 h2 h3
    simp only [emitAll, List.foldl_cons]
    obtain ⟨g1, g2, g3⟩ := emitStep_proj_congr cfg st st' c h1 h2 h3
    exact ih (emitStep cfg st c) (emitStep cfg st' c) g1 g2 g3

theorem emitStep_pos4_proj (cfg : EmitCfg) (st : EmitState) (c : RawComment) (h : c.pos = 4) :
    (emitStep cfg st c).scrolling = st.scrolling ∧
    (emitStep cfg st c).top = st.top ∧
    (emitStep cfg st c).events = st.events := by
  simp only [emitStep]
  split
  · exact ⟨rfl, rfl, rfl⟩
  · repeat' split
    all_goals first | exact ⟨rfl, rfl, rfl⟩ | (exfalso; omega)

/-- C9: a comment with position code 4 (Bottom) produces no Dialogue event
and updates no lane state: for every configuration, start state and
comment list — hence regardless of budget or filter settings — the
emission loop yields the same events and the same scrolling and top lane
maps as the loop over the list with all pos-4 comments removed. -/
theorem c9_bottom_never_emitted (cfg : EmitCfg) (comments : List RawComment) (st : EmitState) :
    (emitAll cfg st comments).events =
      (emitAll cfg st (comments.filter (fun c => c.pos != 4))).events ∧
    (emitAll cfg st comments).scrolling =
      (emitAll cfg st (comments.filter (fun c => c.pos != 4))).scrolling ∧
    (emitAll cfg st comments).top =
      (emitAll cfg st (comments.filter (fun c => c.pos != 4))).top := by
  induction comments generalizing st with
  | nil => exact ⟨rfl, rfl, rfl⟩
  | cons c rest ih =>
    by_cases h : c.pos = 4
    · have hf : (c :: rest).filter (fun x => x.pos != 4) = rest.filter (fun x => x.pos != 4) := by
        simp [List.filter_cons, h]
      rw [hf]
      simp only [emitAll, List.foldl_cons]
      obtain ⟨p1, p2, p3⟩ := emitStep_pos4_proj cfg st c h
      obtain ⟨q1, q2, q3⟩ := emitAll_proj_congr cfg rest (emitStep cfg st c) st p1 p2 p3
      obtain ⟨r1, r2, r3⟩ := ih st
      exact ⟨q3.trans r1, q1.trans r2, q2.trans r3⟩
    · have hf : (c :: rest).filter (fun x => x.pos != 4) = c :: rest.filter (fun x => x.pos != 4) := by
        simp [List.filter_cons, h]
      rw [hf]
      simp only [emitAll, List.foldl_cons]
      exact ih (emitStep cfg st c)

/-- A configuration whose canvas height equals the subtitle exclusion
height, so every scroll lane position falls inside the exclusion zone. -/
def c10Cfg : EmitCfg := ⟨1920, 150, 50, 6⟩

/-- A Scroll comment at offset 0 with text "hi". -/
def c10Comment : RawComment := ⟨0, 1, 0, "", "hi"⟩

/-- C10: a Scroll comment whose computed vertical position falls inside
the bottom exclusion zone still allocates a lane and sets that lane's
`busy_until` to `offset_seconds + leave_time` before being dropped: the
step leaves the event list unchanged while marking the chosen lane busy
(the lane update at line 392 precedes the exclusion-zone check at line
396, whose `continue` skips only the emission). -/
theorem c10_dropped_scroll_blocks_lane (cfg : EmitCfg) (st : EmitState) (c : RawComment)
    (htext : c.text ≠ "") (hpos : c.pos = 1)
    (hy : ((find_non_overlapping_track st.scrolling c.time (maxTracksOf cfg) : ℚ) - 1) *
        cfg.fontsize + 10 > (cfg.height : ℚ) - subtitle_area_height) :
    (emitStep cfg st c).events = st.events ∧
    (emitStep cfg st c).scrolling =
      (fun j => if j = find_non_overlapping_track st.scrolling c.time (maxTracksOf cfg)
        then some (c.time + ((c.text.length : ℚ) * cfg.fontsize * (3/5) /
          (((cfg.width : ℚ) + (c.text.length : ℚ) * cfg.fontsize * (3/5)) / cfg.duration) + 1))
        else st.scrolling j) := by
  have hcond : subtitle_area_height > 0 ∧
      ((find_non_overlapping_track st.scrolling c.time (maxTracksOf cfg) : ℚ) - 1) *
        cfg.fontsize + 10 > (cfg.height : ℚ) - subtitle_area_height :=
    ⟨by norm_num [subtitle_area_height], hy⟩
  simp only [emitStep]
  rw [if_neg htext, if_pos hpos, if_pos hcond]
  exact ⟨rfl, rfl⟩

/-- Witness for C10: with canvas height 150 every lane is inside the
exclusion zone, so the comment is dropped, yet lane 1 is marked busy. -/
theorem c10_dropped_scroll_blocks_lane_witness :
    (c10Comment.text ≠ "" ∧ c10Comment.pos = 1 ∧
      ((find_non_overlapping_track initEmitState.scrolling c10Comment.time (maxTracksOf c10Cfg) : ℚ) - 1) *
        c10Cfg.fontsize + 10 > (c10Cfg.height : ℚ) - subtitle_area_height) ∧
    ((emitStep c10Cfg initEmitState c10Comment).events = initEmitState.events ∧
     (emitStep c10Cfg initEmitState c10Comment).scrolling =
       (fun j => if j = find_non_overlapping_track initEmitState.scrolling c10Comment.time (maxTracksOf c10Cfg)
         then some (c10Comment.time + ((c10Comment.text.length : ℚ) * c10Cfg.fontsize * (3/5) /
           (((c10Cfg.width : ℚ) + (c10Comment.text.length : ℚ) * c10Cfg.fontsize * (3/5)) / c10Cfg.duration) + 1))
         else initEmitState.scrolling j)) := by
  have hy : ((find_non_overlapping_track initEmitState.scrolling c10Comment.time (maxTracksOf c10Cfg) : ℚ) - 1) *
      c10Cfg.fontsize + 10 > (c10Cfg.height : ℚ) - subtitle_area_height := by
    rw [show initEmitState.scrolling = (fun _ => none) from rfl, find_track_of_empty]
    norm_num [subtitle_area_height, c10Cfg]
  exact ⟨⟨by decide, by decide, hy⟩,
    c10_dropped_scroll_blocks_lane c10Cfg initEmitState c10Comment (by decide) (by decide) hy⟩

/-- A comment used 25 times over for the identical-text scenario. -/
def c4Comment : RawComment := ⟨0, 1, 0, "u", "x"⟩

theorem insertByTime_replicate (c : RawComment) (n : ℕ) :
    insertByTime c (List.replicate n c) = List.replicate (n + 1) c := by
  induction n with
  | zero => rfl
  | succ k ih =>
    rw [List.replicate_succ, insertByTime, if_pos le_rfl, ih]
    rfl

theorem sortFold_replicate (c : RawComment) :
    ∀ n k, List.foldl (fun acc x => insertByTime x acc) (List.replicate k c)
      (List.replicate n c) = List.replicate (k + n) c := by
  intro n
  induction n with
  | zero => intro k; rfl
  | succ m ih =>
    intro k
    rw [List.replicate_succ, List.foldl_cons, insertByTime_replicate, ih]
    congr 1
    omega

theorem sortByTime_replicate (c : RawComment) (n : ℕ) :
    sortByTime (List.replicate n c) = List.replicate n c := by
  have h := sortFold_replicate c n 0
  rw [List.replicate_zero] at h
  rw [sortByTime, h, Nat.zero_add]

theorem filter_comments_replicate25 :
    filter_comments takeSample (List.replicate 25 c4Comment) = List.replicate 25 c4Comment := by
  simp only [filter_comments, sortByTime_replicate]
  rw [if_pos (by simp [max_comments])]

/-- C4 (amended): for 25 comments sharing identical text, with the list
length within the 2000-comment budget, `filter_comments` returns all 25
comments unchanged (sorted by time): text de-duplication is not applied
on the within-budget path, which returns the sorted list as-is
(line 244), so the duplicates do not collapse to one. -/
theorem c4_within_budget_returns_all :
    filter_comments takeSample (List.replicate 25 c4Comment) = List.replicate 25 c4Comment :=
  filter_comments_replicate25

/-- Counterexample to C4 as stated: the filter returns 25 comments for
the 25 identical-text within-budget input, not a single comment. -/
theorem c4_counterexample :
    (filter_comments takeSample (List.replicate 25 c4Comment)).length = 25 ∧ (25 : ℕ) ≠ 1 := by
  constructor
  · rw [filter_comments_replicate25, List.length_replicate]
  · decide

/-- C8: the merge returns `none` — modelling `combine_sub_ass` returning
`False` before its output file is ever opened, so no merged file is
created and the primary danmu-only file is left untouched on disk —
whenever the secondary `.ass`/`.ssa` content has no style `Format:` line
or no `[Events]` section. -/
theorem c8_merge_fails_without_sections (sub1 sub2 ext : List Char)
    (h : findFormatFrom sub2 = none ∨ findSub ("[Events]".data) sub2 0 = none) :
    combine_sub_ass sub1 sub2 ext = none := by
  simp only [combine_sub_ass]
  split
  · split
    · rfl
    · rcases h with h | h
      · rw [h]
      · split
        · rfl
        · split
          · rfl
          · rw [h]
  · rfl

/-- Witness for C8: a secondary `.ass` content with neither a `Format:`
line nor an `[Events]` section makes the merge fail. -/
theorem c8_merge_fails_without_sections_witness :
    (findFormatFrom ("hello".data) = none ∨
      findSub ("[Events]".data) ("hello".data) 0 = none) ∧
    combine_sub_ass ("x".data) ("hello".data) (".ass".data) = none :=
  ⟨Or.inl (by decide),
    c8_merge_fails_without_sections ("x".data) ("hello".data) (".ass".data) (Or.inl (by decide))⟩

theorem insertByTime_length (c : RawComment) (l : List RawComment) :
    (insertByTime c l).length = l.length + 1 := by
  induction l with
  | nil => rfl
  | cons d rest ih =>
    rw [insertByTime]
    split
    · rw [List.length_cons, ih, List.length_cons]
    · rfl

theorem sortByTime_length (l : List RawComment) : (sortByTime l).length = l.length := by
  suffices h : ∀ (l2 : List RawComment) (acc : List RawComment),
      (List.foldl (fun a c => insertByTime c a) acc l2).length = acc.length + l2.length by
    have h2 := h l []
    rw [List.length_nil, Nat.zero_add] at h2
    exact h2
  intro l2
  induction l2 with
  | nil => intro acc; rfl
  | cons c rest ih =>
    intro acc
    rw [List.foldl_cons, ih, insertByTime_length, List.length_cons]
    omega

theorem dedupByTextGo_sublist : ∀ (l : List RawComment) (seen : List String),
    (dedupByTextGo l seen).Sublist l := by
  intro l
  induction l with
  | nil => intro _; exact List.Sublist.refl _
  | cons c rest ih =>
    intro seen
    rw [dedupByTextGo]
    split
    · exact (ih seen).trans (List.sublist_cons_self c rest)
    · exact (ih (c.text :: seen)).cons₂ c

theorem dedupByTextGo_nodup : ∀ (l : List RawComment) (seen : List String),
    ((dedupByTextGo l seen).map RawComment.text).Nodup ∧
    ∀ s ∈ (dedupByTextGo l seen).map RawComment.text, s ∉ seen := by
  intro l
  induction l with
  | nil =>
    intro seen
    constructor
    · exact List.nodup_nil
    · intro s hs
      simp [dedupByTextGo] at hs
  | cons c rest ih =>
    intro seen
    rw [dedupByTextGo]
    split
    · exact ih seen
    · rename_i hnotin
      obtain ⟨hnd, hns⟩ := ih (c.text :: seen)
      constructor
      · rw [List.map_cons, List.nodup_cons]
        refine ⟨fun hmem => ?_, hnd⟩
        exact (hns _ hmem) (List.mem_cons_self _ _)
      · intro s hs
        rw [List.map_cons, List.mem_cons] at hs
        rcases hs with rfl | hs
        · exact hnotin
        · intro hseen
          exact (hns s hs) (List.mem_cons_of_mem _ hseen)

theorem chunk_prefix (u : List RawComment) (s : ℕ) :
    ∀ (m k : ℕ), ((List.range m).map (fun i => (u.drop (k + i * s)).take s)).flatten
      ++ u.drop (k + m * s) = u.drop k := by
  intro m
  induction m with
  | zero =>
    intro k
    simp
  | succ m2 ih =>
    intro k
    rw [List.range_succ, List.map_append, List.flatten_append]
    simp only [List.map_cons, List.map_nil, List.flatten_cons, List.flatten_nil, List.append_nil]
    rw [List.append_assoc]
    have hpiece : (u.drop (k + m2 * s)).take s ++ u.drop (k + (m2 + 1) * s) = u.drop (k + m2 * s) := by
      conv_rhs => rw [← List.take_append_drop s (u.drop (k + m2 * s))]
      congr 1
      rw [List.drop_drop]
      congr 1
      ring
    rw [hpiece, ih]

theorem chunks10_flatten (u : List RawComment) (s : ℕ) :
    ((List.range 10).map (fun i =>
      if i < 9 then (u.drop (i * s)).take s else u.drop (9 * s))).flatten = u := by
  rw [show (10 : ℕ) = 9 + 1 from rfl, List.range_succ, List.map_append, List.flatten_append]
  simp only [List.map_cons, List.map_nil, List.flatten_cons, List.flatten_nil, List.append_nil]
  rw [if_neg (by omega)]
  have hmap : (List.range 9).map (fun i =>
      if i < 9 then (u.drop (i * s)).take s else u.drop (9 * s))
      = (List.range 9).map (fun i => (u.drop (0 + i * s)).take s) := by
    apply List.map_congr_left
    intro i hi
    rw [if_pos (List.mem_range.mp hi), Nat.zero_add]
  rw [hmap]
  have h := chunk_prefix u s 9 0
  rw [Nat.zero_add, List.drop_zero] at h
  exact h

theorem sampleBucket_subperm (sample : ℕ → List RawComment → List RawComment)
    (hs : SampleOk sample) (n : ℕ) (b : List RawComment) :
    ∃ ys, ys.Sublist b ∧ (sampleBucket sample n b).Perm ys := by
  simp only [sampleBucket]
  split
  · rename_i hlt
    exact (hs _ b (le_of_lt hlt)).2
  · exact ⟨b, List.Sublist.refl b, List.Perm.refl _⟩

theorem sampleBucket_length (sample : ℕ → List RawComment → List RawComment)
    (hs : SampleOk sample) (n : ℕ) (b : List RawComment) :
    (sampleBucket sample n b).length ≤
      max 1 (pyTrunc ((b.length : ℚ) * ((max_comments : ℚ) / (n : ℚ)))).toNat := by
  simp only [sampleBucket]
  split
  · rename_i hlt
    rw [(hs _ b (le_of_lt hlt)).1]
  · rename_i hge
    omega

theorem pieces_subperm (sample : ℕ → List RawComment → List RawComment)
    (hs : SampleOk sample) (n : ℕ) :
    ∀ bs : List (List RawComment),
      ∃ ys, ys.Sublist bs.flatten ∧ ((bs.map (sampleBucket sample n)).flatten).Perm ys := by
  intro bs
  induction bs with
  | nil => exact ⟨[], by simp, by simp⟩
  | cons b rest ih =>
    obtain ⟨y1, hy1s, hy1p⟩ := sampleBucket_subperm sample hs n b
    obtain ⟨y2, hy2s, hy2p⟩ := ih
    refine ⟨y1 ++ y2, ?_, ?_⟩
    · rw [List.flatten_cons]
      exact List.Sublist.append hy1s hy2s
    · rw [List.map_cons, List.flatten_cons]
      exact List.Perm.append hy1p hy2p

theorem pieces_length (sample : ℕ → List RawComment → List RawComment)
    (hs : SampleOk sample) (n : ℕ) :
    ∀ bs : List (List RawComment),
      ((bs.map (sampleBucket sample n)).flatten).length ≤
        (bs.map (fun b =>
          max 1 (pyTrunc ((b.length : ℚ) * ((max_comments : ℚ) / (n : ℚ)))).toNat)).sum := by
  intro bs
  induction bs with
  | nil => simp
  | cons b rest ih =>
    simp only [List.map_cons, List.flatten_cons, List.length_append, List.sum_cons]
    have h1 := sampleBucket_length sample hs n b
    omega

theorem targets_sum_le (n : ℕ) (hn : n > max_comments) :
    9 * (max 1 (pyTrunc (((n / 10 : ℕ) : ℚ) * ((max_comments : ℚ) / (n : ℚ)))).toNat) +
      (max 1 (pyTrunc (((n - 9 * (n / 10) : ℕ) : ℚ) * ((max_comments : ℚ) / (n : ℚ)))).toNat) ≤
      max_comments := by
  have hmax : (max_comments : ℕ) = 2000 := rfl
  set s := n / 10 with hsdef
  have hs10 : 10 * s ≤ n ∧ n < 10 * s + 10 := by omega
  have hslarge : n ≤ 2000 * s := by omega
  have hlastlarge : n ≤ 2000 * (n - 9 * s) := by omega
  have hn0 : (0 : ℚ) < (n : ℚ) := by
    have : (0 : ℕ) < n := by omega
    exact_mod_cast this
  have hmaxq : ((max_comments : ℕ) : ℚ) = 2000 := by norm_num [max_comments]
  have key : ∀ len : ℕ, n ≤ 2000 * len →
      (1 ≤ ⌊(len : ℚ) * ((max_comments : ℚ) / (n : ℚ))⌋ ∧
        pyTrunc ((len : ℚ) * ((max_comments : ℚ) / (n : ℚ))) =
          ⌊(len : ℚ) * ((max_comments : ℚ) / (n : ℚ))⌋) := by
    intro len hlen
    have hq : (1 : ℚ) ≤ (len : ℚ) * ((max_comments : ℚ) / (n : ℚ)) := by
      rw [hmaxq]
      rw [mul_div_assoc', le_div_iff₀ hn0]
      have h2 : ((n : ℕ) : ℚ) ≤ ((2000 * len : ℕ) : ℚ) := by exact_mod_cast hlen
      push_cast at h2
      linarith
    refine ⟨Int.le_floor.mpr (by exact_mod_cast hq), ?_⟩
    rw [pyTrunc, if_pos (by linarith)]
  obtain ⟨hf1, hp1⟩ := key s hslarge
  obtain ⟨hf2, hp2⟩ := key (n - 9 * s) hlastlarge
  have hsumq : 9 * ((s : ℚ) * ((max_comments : ℚ) / (n : ℚ))) +
      (((n - 9 * s : ℕ) : ℚ) * ((max_comments : ℚ) / (n : ℚ))) = 2000 := by
    have hcast : ((n - 9 * s : ℕ) : ℚ) = (n : ℚ) - 9 * (s : ℚ) := by
      have h9s : 9 * s ≤ n := by omega
      push_cast [Nat.cast_sub h9s]
      ring
    rw [hcast, hmaxq]
    field_simp
    ring
  have hfsum : 9 * ⌊(s : ℚ) * ((max_comments : ℚ) / (n : ℚ))⌋ +
      ⌊((n - 9 * s : ℕ) : ℚ) * ((max_comments : ℚ) / (n : ℚ))⌋ ≤ 2000 := by
    have ha := Int.floor_le ((s : ℚ) * ((max_comments : ℚ) / (n : ℚ)))
    have hb := Int.floor_le (((n - 9 * s : ℕ) : ℚ) * ((max_comments : ℚ) / (n : ℚ)))
    have : (9 * ⌊(s : ℚ) * ((max_comments : ℚ) / (n : ℚ))⌋ +
        ⌊((n - 9 * s : ℕ) : ℚ) * ((max_comments : ℚ) / (n : ℚ))⌋ : ℚ) ≤ 2000 := by
      linarith
    exact_mod_cast this
  rw [hp1, hp2]
  omega

theorem sampleBuckets_spec (sample : ℕ → List RawComment → List RawComment)
    (hs : SampleOk sample) (u : List RawComment)
    (hbig : u.length > max_comments)
    (hnd : (u.map RawComment.text).Nodup) :
    (sampleBuckets sample u).length ≤ max_comments ∧
    ((sampleBuckets sample u).map RawComment.text).Nodup := by
  have hform : sampleBuckets sample u =
      (((List.range 10).map (fun i =>
        if i < 9 then (u.drop (i * (u.length / 10))).take (u.length / 10)
        else u.drop (9 * (u.length / 10)))).map (sampleBucket sample u.length)).flatten := by
    simp only [sampleBuckets, List.map_map]
    rfl
  set bs := (List.range 10).map (fun i =>
    if i < 9 then (u.drop (i * (u.length / 10))).take (u.length / 10)
    else u.drop (9 * (u.length / 10))) with hbs
  have hflat : bs.flatten = u := chunks10_flatten u (u.length / 10)
  constructor
  · rw [hform]
    refine le_trans (pieces_length sample hs u.length bs) ?_
    have hsum : (bs.map (fun b =>
        max 1 (pyTrunc ((b.length : ℚ) * ((max_comments : ℚ) / (u.length : ℚ)))).toNat)).sum =
        9 * (max 1 (pyTrunc (((u.length / 10 : ℕ) : ℚ) *
            ((max_comments : ℚ) / (u.length : ℚ)))).toNat) +
          (max 1 (pyTrunc (((u.length - 9 * (u.length / 10) : ℕ) : ℚ) *
            ((max_comments : ℚ) / (u.length : ℚ)))).toNat) := by
      rw [hbs, List.map_map]
      have hcong : ∀ i ∈ List.range 10,
          ((fun b => max 1 (pyTrunc ((b.length : ℚ) *
              ((max_comments : ℚ) / (u.length : ℚ)))).toNat) ∘
            (fun i => if i < 9 then (u.drop (i * (u.length / 10))).take (u.length / 10)
              else u.drop (9 * (u.length / 10)))) i =
          (fun i : ℕ => if i < 9 then
              max 1 (pyTrunc (((u.length / 10 : ℕ) : ℚ) *
                ((max_comments : ℚ) / (u.length : ℚ)))).toNat
            else
              max 1 (pyTrunc (((u.length - 9 * (u.length / 10) : ℕ) : ℚ) *
                ((max_comments : ℚ) / (u.length : ℚ)))).toNat) i := by
        intro i hi
        simp only [Function.comp]
        by_cases h9 : i < 9
        · rw [if_pos h9, if_pos h9, List.length_take, List.length_drop]
          have hmin : min (u.length / 10) (u.length - i * (u.length / 10)) = u.length / 10 := by
            have hi9 : i ≤ 8 := by omega
            have h10 : 10 * (u.length / 10) ≤ u.length := by omega
            have : i * (u.length / 10) ≤ 8 * (u.length / 10) :=
              Nat.mul_le_mul_right _ hi9
            omega
          rw [hmin]
        · rw [if_neg h9, if_neg h9, List.length_drop]
      rw [List.map_congr_left hcong]
      rw [show List.range 10 = [0, 1, 2, 3, 4, 5, 6, 7, 8, 9] from rfl]
      simp only [List.map_cons, List.map_nil, List.sum_cons, List.sum_nil]
      norm_num
      omega
    rw [hsum]
    exact targets_sum_le u.length hbig
  · rw [hform]
    obtain ⟨ys, hys, hperm⟩ := pieces_subperm sample hs u.length bs
    rw [hflat] at hys
    have h1 : (ys.map RawComment.text).Nodup :=
      List.Nodup.sublist (List.Sublist.map _ hys) hnd
    exact ((hperm.map RawComment.text).nodup_iff).mpr h1

/-- C3: for every comment list longer than the 2000-comment budget and
every sampler satisfying the `random.sample` contract, the filter's
result has length at most the budget (after de-duplication and
per-bucket proportional sampling with minimum 1 per non-empty bucket)
and the retained comments' texts are pairwise distinct. -/
theorem c3_filter_respects_budget (sample : ℕ → List RawComment → List RawComment)
    (comments : List RawComment) (hs : SampleOk sample)
    (hlen : comments.length > max_comments) :
    (filter_comments sample comments).length ≤ max_comments ∧
    ((filter_comments sample comments).map RawComment.text).Nodup := by
  simp only [filter_comments]
  rw [if_neg (by rw [sortByTime_length]; omega)]
  by_cases hcase : (dedupByTextGo (sortByTime comments) []).length > max_comments
  · rw [if_pos hcase]
    exact sampleBuckets_spec sample hs _ hcase (dedupByTextGo_nodup _ _).1
  · rw [if_neg hcase]
    exact ⟨by omega, (dedupByTextGo_nodup _ _).1⟩

/-- Witness for C3: 2001 copies of one comment exceed the budget, and the
take-based sampler satisfies the `random.sample` contract. -/
theorem c3_filter_respects_budget_witness :
    (SampleOk takeSample ∧ (List.replicate 2001 c4Comment).length > max_comments) ∧
    ((filter_comments takeSample (List.replicate 2001 c4Comment)).length ≤ max_comments ∧
      ((filter_comments takeSample (List.replicate 2001 c4Comment)).map RawComment.text).Nodup) := by
  have hok : SampleOk takeSample := by
    intro k xs hk
    refine ⟨?_, ⟨xs.take k, List.take_sublist k xs, List.Perm.refl _⟩⟩
    rw [takeSample, List.length_take]
    omega
  have hlen : (List.replicate 2001 c4Comment).length > max_comments := by
    rw [List.length_replicate]
    decide
  exact ⟨⟨hok, hlen⟩, c3_filter_respects_budget takeSample _ hok hlen⟩
